import Mathlib

/-!
Shallow embedding of the run-discovery and aggregation engine of
`backend/main.py` (ML Training Dashboard), covering `find_all_runs`
(lines 52-116), the asset-listing part of `get_run` (lines 160-190),
`serve_file` (lines 203-220) and `add_training_path` (lines 230-237).

Modelling conventions:
* Filesystem paths are lists of name components, mirroring
  `pathlib.PurePath.parts` for relative paths: parsing a path string drops
  empty components and `"."` components (so `Path("./runs").parts = ("runs",)`),
  while `".."` components are kept as ordinary entries.  The leading root of an
  absolute path is not modelled separately; only relative paths appear in the
  properties below.
* Python's `list.sort` is a stable sort; it is embedded as a structural
  insertion sort, which computes the same list as any stable sort with the
  same key (and, unlike well-founded recursion, reduces inside the kernel).
* JSON artifact files are modelled by their parse outcome: `absent`,
  `malformed` (present but any use of its contents raises, caught by the
  surrounding `except`), or `wellFormed doc`.  Dictionary keys that the Python
  code sets only conditionally are modelled as `Option` fields, `none` meaning
  the key is missing from the resulting JSON object.
* Timestamps (`st_ctime`, `time.time()`, the `timestamp` metric field) are
  integers; `datetime.fromtimestamp(t).isoformat()` is kept as the raw `t`,
  since the sort in `find_all_runs` orders by that derived field itself.
-/

namespace Dashboard

/-- Split a character list at `/` separators (the component split that
`pathlib` applies to a path string). -/
def splitSlashAux (cur : List Char) : List Char → List (List Char)
  | [] => [cur.reverse]
  | c :: rest =>
    if c = '/' then cur.reverse :: splitSlashAux [] rest
    else splitSlashAux (c :: cur) rest

/-- All `/`-separated chunks of a character list. -/
def splitSlash (cs : List Char) : List (List Char) := splitSlashAux [] cs

/-- `pathlib.PurePath` parsing of a relative path string: split on `/` and
drop empty and `"."` components (`Path("./runs").parts == ("runs",)`). -/
def pathParts (s : String) : List String :=
  ((splitSlash s.toList).map (fun cs => String.mk cs)).filter
    (fun c => c != "" && c != ".")

/-- `PurePath.name`: the final component, or `""` when there is none
(in particular `Path(".").name == ""`). -/
def pathName (p : List String) : String := p.getLast?.getD ""

/-- `PurePath.parent`: the path without its final component. -/
def pathParent (p : List String) : List String := p.dropLast

/-- Parse outcome of a JSON artifact file inside a run directory.
`malformed` covers every file whose use inside the `try` block raises
(invalid JSON, or JSON of an unexpected shape). -/
inductive JsonFile (α : Type) where
  | absent
  | malformed
  | wellFormed (doc : α)
  deriving DecidableEq

/-- `Path.exists()` for an artifact file: true unless the file is absent. -/
def JsonFile.found : JsonFile α → Bool
  | .absent => false
  | .malformed => true
  | .wellFormed _ => true

/-- Stand-in for the arbitrary JSON object stored in `config.json`; only its
identity matters to the engine, never its contents.  `[]` plays the role of
the empty object `{}`. -/
abbrev ConfigDoc := List (String × String)

/-- One entry of `validation_metrics`: the engine reads only its `timestamp`
field (`last_metric.get("timestamp", 0)`), which may be missing. -/
structure ValEntry where
  timestamp : Option Int
  deriving DecidableEq

/-- The shape of `metrics.json` as consumed by `find_all_runs`:
`metrics.get("training_metrics", [])` and `metrics.get("validation_metrics", [])`,
each key possibly missing.  Only the length of `training_metrics` is used, so
its entries are modelled as `Unit`. -/
structure MetricsDoc where
  training_metrics : Option (List Unit)
  validation_metrics : Option (List ValEntry)
  deriving DecidableEq

/-- One directory entry of a scanned runs directory, together with everything
the engine reads from it: `is_dir()`, the two artifact files, `st_ctime`, and
the file names in the optional `plots` and `samples` subdirectories
(`none` when the subdirectory is absent). -/
structure RunDir where
  name : String
  isDir : Bool
  config : JsonFile ConfigDoc
  metrics : JsonFile MetricsDoc
  ctime : Int
  plots : Option (List String)
  samples : Option (List String)
  deriving DecidableEq

/-- One directory matched by a glob pattern in `TRAINING_RUNS_PATHS`:
its path (as `pathlib` parts), whether it (still) exists
(`runs_path.exists()`, line 61), and its entries (`runs_path.iterdir()`). -/
structure RunsDir where
  path : List String
  present : Bool
  entries : List RunDir
  deriving DecidableEq

/-- The `run_info` dictionary built per run (lines 78-110).  `config`,
`metrics_count` and `epochs` are `Option`s because the Python code only sets
those keys when the corresponding artifact file exists. -/
structure RunInfo where
  id : String
  path : List String
  project : String
  status : String
  created_at : Int
  config : Option ConfigDoc
  metrics_count : Option Nat
  epochs : Option Nat
  deriving DecidableEq

/-- `metrics["validation_metrics"][-1].get("timestamp", 0)` (lines 104-105),
with the outer default 0 unreachable on a non-empty list. -/
def lastTimestamp (vm : List ValEntry) : Int :=
  (vm.getLast?.map (fun e => e.timestamp.getD 0)).getD 0

/-- The body of the per-subdirectory loop of `find_all_runs` (lines 67-110):
skip non-directories, skip directories with neither `config.json` nor
`metrics.json`, otherwise build the `run_info` record.  The sequential
key-by-key construction of the Python dict is presented field by field; each
field's match reproduces the branch structure of lines 86-110 (on a malformed
`metrics.json` the `except` arm sets both counts to 0 and leaves `status`
untouched, i.e. `"completed"`). -/
def classifyRun (now : Int) (runsPath : List String) (d : RunDir) : Option RunInfo :=
  if !d.isDir then none
  else if !(d.config.found || d.metrics.found) then none
  else some {
    id := d.name
    path := runsPath ++ [d.name]
    project :=
      if pathName (pathParent runsPath) ≠ "." then pathName (pathParent runsPath)
      else "local"
    status :=
      match d.metrics with
      | .wellFormed m =>
        if m.validation_metrics.getD [] ≠ [] ∧
            now - lastTimestamp (m.validation_metrics.getD []) < 300 then "running"
        else "completed"
      | _ => "completed"
    created_at := d.ctime
    config :=
      match d.config with
      | .absent => none
      | .malformed => some []
      | .wellFormed c => some c
    metrics_count :=
      match d.metrics with
      | .absent => none
      | .malformed => some 0
      | .wellFormed m => some (m.training_metrics.getD []).length
    epochs :=
      match d.metrics with
      | .absent => none
      | .malformed => some 0
      | .wellFormed m => some (m.validation_metrics.getD []).length }

/-- The runs collected from one matched runs directory (lines 61-112):
nothing if the directory no longer exists, otherwise the classified entries. -/
def scanRunsDir (now : Int) (rd : RunsDir) : List RunInfo :=
  if rd.present then rd.entries.filterMap (classifyRun now rd.path) else []

/-- Stable insertion of `a` into `l`: `a` goes after every prefix element `b`
with `le b a` (so equal elements keep their original relative order). -/
def insertSorted (le : α → α → Bool) (a : α) : List α → List α
  | [] => [a]
  | b :: rest => if le b a then b :: insertSorted le a rest else a :: b :: rest

/-- Stable sort by `le`; computes the same list as Python's stable
`list.sort` with the corresponding key. -/
def sortWith (le : α → α → Bool) (l : List α) : List α :=
  l.foldl (fun acc x => insertSorted le x acc) []

/-- Sort order of `all_runs.sort(key=lambda x: x["created_at"], reverse=True)`:
`a` may precede `b` when `b.created_at <= a.created_at` (newest first). -/
def runLe (a b : RunInfo) : Bool := decide (b.created_at ≤ a.created_at)

/-- `find_all_runs` (lines 52-116): classify every entry of every matched
runs directory, concatenate, and sort by `created_at` descending. -/
def find_all_runs (now : Int) (dirs : List RunsDir) : List RunInfo :=
  sortWith runLe ((dirs.map (scanRunsDir now)).flatten)

/-- `pathlib.PurePath.suffix` of a file name: the substring from the last
dot, unless that dot is the first or last character of the name. -/
def suffix (name : String) : String :=
  let cs := name.toList
  match cs.reverse.findIdx? (fun c => c == '.') with
  | none => ""
  | some j =>
    let i := cs.length - 1 - j
    if 0 < i ∧ i < cs.length - 1 then String.mk (cs.drop i) else ""

/-- Python's `marker in hay` substring test, on character lists. -/
def containsMarker (marker : List Char) : List Char → Bool
  | [] => marker.isEmpty
  | c :: rest => marker.isPrefixOf (c :: rest) || containsMarker marker rest

/-- Python's `marker in hay` substring test on strings. -/
def containsSubstring (hay marker : String) : Bool :=
  containsMarker marker.toList hay.toList

/-- Code-point comparison of character lists: Python's `<=` on strings. -/
def charListLe : List Char → List Char → Bool
  | [], _ => true
  | _ :: _, [] => false
  | a :: as, b :: bs =>
    if a.toNat < b.toNat then true
    else if b.toNat < a.toNat then false
    else charListLe as bs

/-- Python's `<=` on strings (lexicographic by code point). -/
def strLe (a b : String) : Bool := charListLe a.toList b.toList

/-- The plot listing of `get_run` (lines 160-183): if the `plots` directory
exists, keep files with suffix `.png`/`.jpg`/`.jpeg`, skip every name
containing `_epoch_` (the `epoch_plots` dict of line 168 is never populated,
so the "latest epoch plot" loop of lines 179-180 appends nothing), and sort. -/
def listPlots (plotsDir : Option (List String)) : List String :=
  match plotsDir with
  | none => []
  | some names =>
    let all_plot_files := names.filter (fun f => [".png", ".jpg", ".jpeg"].contains (suffix f))
    let plots := all_plot_files.filter (fun f => !(containsSubstring f "_epoch_"))
    sortWith strLe plots

/-- The sample listing of `get_run` (lines 185-190): if the `samples`
directory exists, keep files with suffix `.png`/`.jpg`/`.jpeg` and sort. -/
def listSamples (samplesDir : Option (List String)) : List String :=
  match samplesDir with
  | none => []
  | some names =>
    sortWith strLe (names.filter (fun f => [".png", ".jpg", ".jpeg"].contains (suffix f)))

/-- Outcome of `serve_file`: a `FileResponse` streaming the file at the
resolved path, or one of the two error payloads. -/
inductive ServeResult where
  | fileResponse (resolved : List String)
  | runNotFound
  | fileNotFound
  deriving DecidableEq

/-- Resolution of `..` components against the directory tree, as the
operating system performs it when `Path.exists()` is called; `..` at the
scan root stays at the root. -/
def resolveComp (acc : List String) : List String → List String
  | [] => acc
  | c :: rest =>
    if c = ".." then resolveComp acc.dropLast rest
    else resolveComp (acc ++ [c]) rest

/-- Resolve all `..` components of a joined path. -/
def resolvePath (p : List String) : List String := resolveComp [] p

/-- `serve_file` (lines 203-220): find the run by id, join its directory path
with the raw `file_path` request segment (`Path(run["path"]) / file_path`,
which keeps `..` components), and stream the file if the joined path resolves
to an existing regular file.  `fileSys` is the set of regular files on disk,
keyed by resolved path.  No containment check is performed. -/
def serve_file (fileSys : List (List String)) (now : Int) (dirs : List RunsDir)
    (run_id : String) (file_path : String) : ServeResult :=
  match (find_all_runs now dirs).find? (fun r => r.id == run_id) with
  | none => .runNotFound
  | some run =>
    let file_full_path := run.path ++ pathParts file_path
    if resolvePath file_full_path ∈ fileSys then .fileResponse (resolvePath file_full_path)
    else .fileNotFound

/-- Outcome of `add_training_path`: the `{"message": ...}` or `{"error": ...}`
payload. -/
inductive PostResult where
  | message (text : String)
  | error (text : String)
  deriving DecidableEq

/-- `add_training_path` (lines 230-237): `path.get("path")` is `body`;
append when it is a non-empty string not already in the list
(`if new_path and new_path not in TRAINING_RUNS_PATHS`), otherwise leave the
list unchanged and report the error payload. -/
def add_training_path (paths : List String) (body : Option String) :
    List String × PostResult :=
  match body with
  | some new_path =>
    if new_path ≠ "" ∧ new_path ∉ paths then
      (paths ++ [new_path], .message ("Added path: " ++ new_path))
    else (paths, .error "Invalid or duplicate path")
  | none => (paths, .error "Invalid or duplicate path")

/-! ## General lemmas about the stable insertion sort -/

theorem insertSorted_perm (le : α → α → Bool) (a : α) (l : List α) :
    List.Perm (insertSorted le a l) (a :: l) := by
  induction l with
  | nil => exact List.Perm.refl _
  | cons b rest ih =>
    simp only [insertSorted]
    by_cases h : le b a = true
    · rw [if_pos h]
      exact (ih.cons b).trans (List.Perm.swap a b rest)
    · rw [if_neg h]

theorem mem_insertSorted (le : α → α → Bool) (a x : α) (l : List α) :
    x ∈ insertSorted le a l ↔ x = a ∨ x ∈ l := by
  rw [(insertSorted_perm le a l).mem_iff, List.mem_cons]

theorem foldl_insertSorted_perm (le : α → α → Bool) (l acc : List α) :
    List.Perm (l.foldl (fun acc x => insertSorted le x acc) acc) (acc ++ l) := by
  induction l generalizing acc with
  | nil => simp
  | cons x rest ih =>
    have step1 : (x :: rest).foldl (fun acc x => insertSorted le x acc) acc
        = rest.foldl (fun acc x => insertSorted le x acc) (insertSorted le x acc) := rfl
    rw [step1]
    exact ((ih (insertSorted le x acc)).trans
      ((insertSorted_perm le x acc).append_right rest)).trans List.perm_middle.symm

theorem sortWith_perm (le : α → α → Bool) (l : List α) :
    List.Perm (sortWith le l) l := by
  simpa using foldl_insertSorted_perm le l []

theorem mem_sortWith (le : α → α → Bool) (x : α) (l : List α) :
    x ∈ sortWith le l ↔ x ∈ l :=
  (sortWith_perm le l).mem_iff

theorem pairwise_insertSorted (le : α → α → Bool)
    (htot : ∀ a b, le a b = true ∨ le b a = true)
    (htrans : ∀ a b c, le a b = true → le b c = true → le a c = true)
    (a : α) (l : List α) (hl : l.Pairwise (fun x y => le x y = true)) :
    (insertSorted le a l).Pairwise (fun x y => le x y = true) := by
  induction l with
  | nil => simp [insertSorted]
  | cons b rest ih =>
    rcases List.pairwise_cons.mp hl with ⟨hb, hrest⟩
    simp only [insertSorted]
    by_cases h : le b a = true
    · rw [if_pos h]
      refine List.pairwise_cons.mpr ⟨?_, ih hrest⟩
      intro x hx
      rcases (mem_insertSorted le a x rest).mp hx with rfl | hx2
      · exact h
      · exact hb x hx2
    · rw [if_neg h]
      have hab : le a b = true := (htot a b).resolve_right h
      refine List.pairwise_cons.mpr ⟨?_, hl⟩
      intro x hx
      rcases List.mem_cons.mp hx with rfl | hx2
      · exact hab
      · exact htrans a b x hab (hb x hx2)

theorem pairwise_sortWith (le : α → α → Bool)
    (htot : ∀ a b, le a b = true ∨ le b a = true)
    (htrans : ∀ a b c, le a b = true → le b c = true → le a c = true)
    (l : List α) :
    (sortWith le l).Pairwise (fun x y => le x y = true) := by
  have main : ∀ (l acc : List α), acc.Pairwise (fun x y => le x y = true) →
      (l.foldl (fun acc x => insertSorted le x acc) acc).Pairwise
        (fun x y => le x y = true) := by
    intro l
    induction l with
    | nil => intro acc hacc; exact hacc
    | cons x rest ih =>
      intro acc hacc
      exact ih _ (pairwise_insertSorted le htot htrans x acc hacc)
  exact main l [] (by simp)

/-! ## The two concrete orders are total and transitive -/

theorem runLe_total (a b : RunInfo) : runLe a b = true ∨ runLe b a = true := by
  simp only [runLe, decide_eq_true_eq]
  omega

theorem runLe_trans (a b c : RunInfo) :
    runLe a b = true → runLe b c = true → runLe a c = true := by
  simp only [runLe, decide_eq_true_eq]
  omega

theorem charListLe_total (as bs : List Char) :
    charListLe as bs = true ∨ charListLe bs as = true := by
  induction as generalizing bs with
  | nil => left; rfl
  | cons a as ih =>
    cases bs with
    | nil => right; rfl
    | cons b bs =>
      simp only [charListLe]
      rcases Nat.lt_trichotomy a.toNat b.toNat with h | h | h
      · left
        simp [h]
      · have h1 : ¬ a.toNat < b.toNat := by omega
        have h2 : ¬ b.toNat < a.toNat := by omega
        simpa [h1, h2] using ih bs
      · right
        simp [h]

theorem charListLe_trans (as bs cs : List Char) :
    charListLe as bs = true → charListLe bs cs = true → charListLe as cs = true := by
  induction as generalizing bs cs with
  | nil => intro _ _; rfl
  | cons a as ih =>
    intro h1 h2
    cases bs with
    | nil => simp [charListLe] at h1
    | cons b bs =>
      cases cs with
      | nil => simp [charListLe] at h2
      | cons c cs =>
        simp only [charListLe] at h1 h2 ⊢
        by_cases hab : a.toNat < b.toNat
        · by_cases hbc : b.toNat < c.toNat
          · simp [show a.toNat < c.toNat by omega]
          · by_cases hcb : c.toNat < b.toNat
            · simp [hbc, hcb] at h2
            · simp [show a.toNat < c.toNat by omega]
        · by_cases hba : b.toNat < a.toNat
          · simp [hab, hba] at h1
          · have heq : a.toNat = b.toNat := by omega
            simp only [hab, hba, if_false] at h1
            by_cases hbc : b.toNat < c.toNat
            · simp [show a.toNat < c.toNat by omega]
            · by_cases hcb : c.toNat < b.toNat
              · simp [hbc, hcb] at h2
              · simp only [hbc, hcb, if_false] at h2
                have h3 : ¬ a.toNat < c.toNat := by omega
                have h4 : ¬ c.toNat < a.toNat := by omega
                simp only [h3, h4, if_false]
                exact ih bs cs h1 h2

theorem strLe_total (a b : String) : strLe a b = true ∨ strLe b a = true :=
  charListLe_total a.toList b.toList

theorem strLe_trans (a b c : String) :
    strLe a b = true → strLe b c = true → strLe a c = true :=
  charListLe_trans a.toList b.toList c.toList

/-! ## Inversion lemmas for the discovery engine -/

theorem classifyRun_eq_some {now : Int} {p : List String} {d : RunDir} {r : RunInfo}
    (h : classifyRun now p d = some r) :
    d.isDir = true ∧ (d.config.found || d.metrics.found) = true ∧
      r.id = d.name ∧ r.path = p ++ [d.name] ∧ r.created_at = d.ctime := by
  unfold classifyRun at h
  cases hdir : d.isDir with
  | false => simp [hdir] at h
  | true =>
    simp only [hdir, Bool.not_true, Bool.false_eq_true, if_false] at h
    cases hf : (d.config.found || d.metrics.found) with
    | false => simp [hf] at h
    | true =>
      simp only [hf, Bool.not_true, Bool.false_eq_true, if_false,
        Option.some.injEq] at h
      subst h
      exact ⟨rfl, rfl, rfl, rfl, rfl⟩

theorem classifyRun_isSome {now : Int} {p : List String} {d : RunDir}
    (hdir : d.isDir = true) (hf : (d.config.found || d.metrics.found) = true) :
    ∃ r, classifyRun now p d = some r := by
  simp only [classifyRun, hdir, hf, Bool.not_true, Bool.false_eq_true, if_false]
  exact ⟨_, rfl⟩

theorem mem_scanRunsDir (now : Int) (rd : RunsDir) (r : RunInfo) :
    r ∈ scanRunsDir now rd ↔
      rd.present = true ∧ ∃ d, d ∈ rd.entries ∧ classifyRun now rd.path d = some r := by
  unfold scanRunsDir
  cases hp : rd.present <;> simp [List.mem_filterMap]

theorem mem_find_all_runs (now : Int) (dirs : List RunsDir) (r : RunInfo) :
    r ∈ find_all_runs now dirs ↔
      ∃ rd, rd ∈ dirs ∧ rd.present = true ∧
        ∃ d, d ∈ rd.entries ∧ classifyRun now rd.path d = some r := by
  unfold find_all_runs
  rw [mem_sortWith, List.mem_flatten]
  constructor
  · rintro ⟨l, hl, hr⟩
    rcases List.mem_map.mp hl with ⟨rd, hrd, rfl⟩
    rcases (mem_scanRunsDir now rd r).mp hr with ⟨hp, d, hd, hc⟩
    exact ⟨rd, hrd, hp, d, hd, hc⟩
  · rintro ⟨rd, hrd, hp, d, hd, hc⟩
    exact ⟨scanRunsDir now rd, List.mem_map.mpr ⟨rd, hrd, rfl⟩,
      (mem_scanRunsDir now rd r).mpr ⟨hp, d, hd, hc⟩⟩

theorem mem_find_all_runs_of_classify {now : Int} {dirs : List RunsDir}
    {rd : RunsDir} {d : RunDir} {r : RunInfo}
    (hrd : rd ∈ dirs) (hp : rd.present = true) (hd : d ∈ rd.entries)
    (hc : classifyRun now rd.path d = some r) :
    r ∈ find_all_runs now dirs :=
  (mem_find_all_runs now dirs r).mpr ⟨rd, hrd, hp, d, hd, hc⟩

theorem nodup_map_filterMap {α β γ : Type} (g : α → Option β) (h : β → γ) (f : α → γ)
    (hg : ∀ a b, g a = some b → h b = f a) (l : List α)
    (hl : (l.map f).Nodup) : ((l.filterMap g).map h).Nodup := by
  induction l with
  | nil => simp
  | cons a rest ih =>
    rw [List.map_cons, List.nodup_cons] at hl
    rcases hl with ⟨hfa, hrest⟩
    cases hga : g a with
    | none => simpa [List.filterMap_cons, hga] using ih hrest
    | some b =>
      simp only [List.filterMap_cons, hga, List.map_cons]
      refine List.nodup_cons.mpr ⟨?_, ih hrest⟩
      intro hmem
      rcases List.mem_map.mp hmem with ⟨b2, hb2, hb2eq⟩
      rcases List.mem_filterMap.mp hb2 with ⟨a2, ha2, hga2⟩
      exact hfa (by
        rw [← hg a b hga, ← hb2eq, hg a2 b2 hga2]
        exact List.mem_map.mpr ⟨a2, ha2, rfl⟩)

/-! ## Claim theorems -/

/-- C1: the claim says `serve_file` streams only files inside the resolved
run's own directory and answers a not-found error whenever `file_path`
escapes it.  The code performs no containment check: with run directory
`runs/run1` (discovered via `config.json`) and a file `secret.txt` at the
scan root, the request `file_path = "../../secret.txt"` resolves outside the
run directory and is streamed anyway, contradicting the claim. -/
theorem serve_file_streams_file_outside_run_dir :
    serve_file [["runs", "run1", "config.json"], ["secret.txt"]] 0
        [⟨["runs"], true, [⟨"run1", true, .wellFormed [], .absent, 0, none, none⟩]⟩]
        "run1" "../../secret.txt"
      = .fileResponse ["secret.txt"] ∧
    ¬ List.IsPrefix ["runs", "run1"] ["secret.txt"] := by
  constructor
  · decide
  · rintro ⟨t, ht⟩
    simp at ht

/-- C2: a scanned subdirectory appears in `find_all_runs`' output (as a run
whose path is the runs directory extended by its name) if and only if it
contains `config.json` or `metrics.json`.  The consistency hypothesis states
that the scanned forest describes one filesystem: two matched runs
directories with the same path list the same entries. -/
theorem run_listed_iff_has_artifact
    (now : Int) (dirs : List RunsDir)
    (hcons : ∀ rd1 ∈ dirs, ∀ rd2 ∈ dirs, rd1.path = rd2.path →
      ∀ d1 ∈ rd1.entries, ∀ d2 ∈ rd2.entries, d1.name = d2.name → d1 = d2)
    (rd : RunsDir) (hrd : rd ∈ dirs) (hp : rd.present = true)
    (d : RunDir) (hd : d ∈ rd.entries) (hdir : d.isDir = true) :
    (∃ r ∈ find_all_runs now dirs, r.path = rd.path ++ [d.name]) ↔
      (d.config.found || d.metrics.found) = true := by
  constructor
  · rintro ⟨r, hr, hpath⟩
    rcases (mem_find_all_runs now dirs r).mp hr with ⟨rd2, hrd2, hp2, d2, hd2, hc2⟩
    rcases classifyRun_eq_some hc2 with ⟨hdir2, hf2, _, hpath2, _⟩
    rw [hpath2] at hpath
    rcases List.append_inj' hpath rfl with ⟨hpeq, hneq⟩
    have hname : d2.name = d.name := by simpa using hneq
    have heq : d2 = d := hcons rd2 hrd2 rd hrd hpeq d2 hd2 d hd hname
    rwa [heq] at hf2
  · intro hf
    rcases @classifyRun_isSome now rd.path d hdir hf with ⟨r, hc⟩
    rcases classifyRun_eq_some hc with ⟨_, _, _, hpath, _⟩
    exact ⟨r, mem_find_all_runs_of_classify hrd hp hd hc, hpath⟩

/-- Witness for `run_listed_iff_has_artifact` at a concrete one-run
filesystem: the directory with a `config.json` is listed. -/
theorem run_listed_iff_has_artifact_witness :
    ∃ r ∈ find_all_runs 5
        [⟨["runs"], true, [⟨"run1", true, .wellFormed [], .absent, 3, none, none⟩]⟩],
      r.path = ["runs", "run1"] := by
  have h := run_listed_iff_has_artifact 5
      [⟨["runs"], true, [⟨"run1", true, .wellFormed [], .absent, 3, none, none⟩]⟩]
      (by decide)
      ⟨["runs"], true, [⟨"run1", true, .wellFormed [], .absent, 3, none, none⟩]⟩
      (by decide) rfl
      ⟨"run1", true, .wellFormed [], .absent, 3, none, none⟩
      (by decide) rfl
  simpa using h.mpr (by decide)

/-- C3: for a run classified from a well-formed `metrics.json`, the status is
`"running"` exactly when `validation_metrics` is non-empty and
`now - timestamp < 300` for the last entry's `timestamp` (default 0 when the
field is absent), and `"completed"` otherwise — in particular `"completed"`
whenever `validation_metrics` is empty or absent. -/
theorem status_inference_rule
    (now : Int) (runsPath : List String) (d : RunDir) (m : MetricsDoc) (r : RunInfo)
    (hm : d.metrics = .wellFormed m)
    (hr : classifyRun now runsPath d = some r) :
    (r.status = "running" ↔
      m.validation_metrics.getD [] ≠ [] ∧
        now - lastTimestamp (m.validation_metrics.getD []) < 300) ∧
    (r.status = "completed" ↔
      ¬ (m.validation_metrics.getD [] ≠ [] ∧
        now - lastTimestamp (m.validation_metrics.getD []) < 300)) := by
  rcases classifyRun_eq_some hr with ⟨hdir, hf, _, _, _⟩
  simp only [classifyRun, hdir, hf, Bool.not_true, Bool.false_eq_true, if_false,
    Option.some.injEq] at hr
  subst hr
  simp only [hm]
  by_cases hcond : m.validation_metrics.getD [] ≠ [] ∧
      now - lastTimestamp (m.validation_metrics.getD []) < 300
  · simp [hcond]
  · simp [hcond]

/-- Witness for `status_inference_rule`: at `now = 1000` with one validation
entry stamped 900 (100 seconds ago), the status is `"running"`. -/
theorem status_inference_rule_witness :
    ((RunInfo.mk "run1" ["runs", "run1"] "" "running" 0 none (some 0) (some 1)).status
        = "running" ↔
      (MetricsDoc.mk none (some [⟨some 900⟩])).validation_metrics.getD [] ≠ [] ∧
        1000 - lastTimestamp
          ((MetricsDoc.mk none (some [⟨some 900⟩])).validation_metrics.getD []) < 300) ∧
    ((RunInfo.mk "run1" ["runs", "run1"] "" "running" 0 none (some 0) (some 1)).status
        = "completed" ↔
      ¬ ((MetricsDoc.mk none (some [⟨some 900⟩])).validation_metrics.getD [] ≠ [] ∧
        1000 - lastTimestamp
          ((MetricsDoc.mk none (some [⟨some 900⟩])).validation_metrics.getD []) < 300)) :=
  status_inference_rule 1000 ["runs"]
    ⟨"run1", true, .absent, .wellFormed ⟨none, some [⟨some 900⟩]⟩, 0, none, none⟩
    ⟨none, some [⟨some 900⟩]⟩
    (RunInfo.mk "run1" ["runs", "run1"] "" "running" 0 none (some 0) (some 1))
    rfl (by decide)

/-- C4: on every filesystem state, `find_all_runs` returns the runs sorted by
`created_at` descending: every adjacent pair (a, b) satisfies
`b.created_at <= a.created_at`. -/
theorem find_all_runs_sorted_by_created_at_desc (now : Int) (dirs : List RunsDir) :
    (find_all_runs now dirs).Chain' (fun a b => b.created_at ≤ a.created_at) := by
  have h : (find_all_runs now dirs).Pairwise (fun a b => runLe a b = true) :=
    pairwise_sortWith runLe runLe_total runLe_trans _
  have h2 : (find_all_runs now dirs).Pairwise
      (fun a b => b.created_at ≤ a.created_at) := by
    refine h.imp ?_
    intro a b hab
    simpa [runLe, decide_eq_true_eq] using hab
  exact h2.chain'

/-- C5: the plot listing is empty when the `plots` directory is absent, a file
name is listed exactly when it is present with suffix `.png`/`.jpg`/`.jpeg`
and does not contain the substring `_epoch_`, and the listing is sorted
lexicographically by code point. -/
theorem listPlots_excludes_epoch_marker (names : List String) (f : String) :
    listPlots none = [] ∧
    (f ∈ listPlots (some names) ↔
      f ∈ names ∧ suffix f ∈ [".png", ".jpg", ".jpeg"] ∧
        containsSubstring f "_epoch_" = false) ∧
    (listPlots (some names)).Chain' (fun a b => strLe a b = true) := by
  refine ⟨rfl, ?_, ?_⟩
  · unfold listPlots
    rw [mem_sortWith]
    simp only [List.mem_filter, Bool.and_eq_true, List.elem_eq_mem,
      decide_eq_true_eq, Bool.not_eq_true', and_assoc]
  · unfold listPlots
    exact (pairwise_sortWith strLe strLe_total strLe_trans _).chain'

/-- C6 counterexample: the claim asserts that when `metrics.json` is absent
the summary still carries `metricsCount = 0` and `epochs = 0`.  In the code
those dictionary keys are only assigned inside `if metrics_file.exists()`
(lines 95-110), so a run discovered through `config.json` alone has neither
key: both fields come out missing (`none`), not 0. -/
theorem absent_metrics_fields_missing_counterexample :
    (find_all_runs 0 [⟨["runs"], true,
        [⟨"run1", true, .wellFormed [], .absent, 7, none, none⟩]⟩]).map
      (fun r => (r.metrics_count, r.epochs)) = [(none, none)] := by decide

/-- C6 amended: for a run directory whose `metrics.json` fails to parse, the
summary has `metricsCount = 0` and `epochs = 0` (both keys present) and the
run still appears in the output; when `metrics.json` is absent the run (if it
has a `config.json`) still appears but both keys are omitted. -/
theorem metrics_failure_degrades_to_defaults
    (now : Int) (dirs : List RunsDir) (rd : RunsDir) (d : RunDir)
    (hrd : rd ∈ dirs) (hp : rd.present = true) (hd : d ∈ rd.entries)
    (hdir : d.isDir = true) :
    (d.metrics = .malformed →
      ∃ r ∈ find_all_runs now dirs,
        r.path = rd.path ++ [d.name] ∧ r.metrics_count = some 0 ∧ r.epochs = some 0) ∧
    (d.metrics = .absent → d.config.found = true →
      ∃ r ∈ find_all_runs now dirs,
        r.path = rd.path ++ [d.name] ∧ r.metrics_count = none ∧ r.epochs = none) := by
  constructor
  · intro hm
    have hf : (d.config.found || d.metrics.found) = true := by
      simp [hm, JsonFile.found]
    rcases @classifyRun_isSome now rd.path d hdir hf with ⟨r, hc⟩
    have hpath := (classifyRun_eq_some hc).2.2.2.1
    have hmem := mem_find_all_runs_of_classify hrd hp hd hc
    simp only [classifyRun, hdir, hf, Bool.not_true, Bool.false_eq_true, if_false,
      Option.some.injEq] at hc
    refine ⟨r, hmem, hpath, ?_, ?_⟩
    · rw [← hc]
      simp [hm]
    · rw [← hc]
      simp [hm]
  · intro hm hcf
    have hf : (d.config.found || d.metrics.found) = true := by
      simp [hcf]
    rcases @classifyRun_isSome now rd.path d hdir hf with ⟨r, hc⟩
    have hpath := (classifyRun_eq_some hc).2.2.2.1
    have hmem := mem_find_all_runs_of_classify hrd hp hd hc
    simp only [classifyRun, hdir, hf, Bool.not_true, Bool.false_eq_true, if_false,
      Option.some.injEq] at hc
    refine ⟨r, hmem, hpath, ?_, ?_⟩
    · rw [← hc]
      simp [hm]
    · rw [← hc]
      simp [hm]

/-- Witness for `metrics_failure_degrades_to_defaults`: a run whose
`metrics.json` is malformed is listed with both counts 0. -/
theorem metrics_failure_degrades_to_defaults_witness :
    ∃ r ∈ find_all_runs 0 [⟨["runs"], true,
        [⟨"r1", true, .absent, .malformed, 2, none, none⟩]⟩],
      r.path = ["runs", "r1"] ∧ r.metrics_count = some 0 ∧ r.epochs = some 0 := by
  have h := metrics_failure_degrades_to_defaults 0
      [⟨["runs"], true, [⟨"r1", true, .absent, .malformed, 2, none, none⟩]⟩]
      ⟨["runs"], true, [⟨"r1", true, .absent, .malformed, 2, none, none⟩]⟩
      ⟨"r1", true, .absent, .malformed, 2, none, none⟩
      (by decide) rfl (by decide) rfl
  simpa using h.1 rfl

/-- C7: the claim says a run found under the local `./runs` pattern gets
project `"local"`.  `pathlib` parses `"./runs"` to the single part `"runs"`,
whose parent's `name` is the empty string, never `"."`; the comparison
`runs_path.parent.name != "."` (line 81) is therefore always true and the
`"local"` substitution is dead code: the project comes out `""`. -/
theorem local_pattern_project_is_empty_not_local :
    pathParts "./runs" = ["runs"] ∧
    pathName (pathParent (pathParts "./runs")) = "" ∧
    (find_all_runs 0 [⟨pathParts "./runs", true,
        [⟨"run1", true, .wellFormed [], .absent, 0, none, none⟩]⟩]).map
      (fun r => r.project) = [""] := by decide

/-- C8 counterexample: two projects each containing a run directory named
`run1` produce two summaries with the same id in a single scan, so the ids of
one result set are not pairwise distinct. -/
theorem duplicate_ids_across_projects_counterexample :
    ((find_all_runs 0
        [⟨["projA", "runs"], true,
          [⟨"run1", true, .wellFormed [], .absent, 0, none, none⟩]⟩,
         ⟨["projB", "runs"], true,
          [⟨"run1", true, .wellFormed [], .absent, 0, none, none⟩]⟩]).map
       (fun r => r.id) = ["run1", "run1"]) ∧
    ¬ ((find_all_runs 0
        [⟨["projA", "runs"], true,
          [⟨"run1", true, .wellFormed [], .absent, 0, none, none⟩]⟩,
         ⟨["projB", "runs"], true,
          [⟨"run1", true, .wellFormed [], .absent, 0, none, none⟩]⟩]).map
       (fun r => r.id)).Pairwise (fun a b => a ≠ b) := by decide

/-- C8 amended: ids are pairwise distinct among the runs collected from any
single runs directory (whose entries, as on a real filesystem, have distinct
names); across different scanned directories ids can collide. -/
theorem ids_nodup_within_single_runs_dir
    (now : Int) (rd : RunsDir)
    (hn : (rd.entries.map (fun d => d.name)).Nodup) :
    ((scanRunsDir now rd).map (fun r => r.id)).Nodup := by
  unfold scanRunsDir
  cases hp : rd.present
  · simp
  · simp only [if_pos rfl]
    exact nodup_map_filterMap (classifyRun now rd.path) (fun r => r.id)
      (fun d => d.name) (fun d r hc => (classifyRun_eq_some hc).2.2.1) rd.entries hn

/-- Witness for `ids_nodup_within_single_runs_dir` on a two-run directory. -/
theorem ids_nodup_within_single_runs_dir_witness :
    ((scanRunsDir 0 ⟨["runs"], true,
        [⟨"a", true, .wellFormed [], .absent, 0, none, none⟩,
         ⟨"b", true, .malformed, .absent, 1, none, none⟩]⟩).map
      (fun r => r.id)).Nodup :=
  ids_nodup_within_single_runs_dir 0 _ (by decide)

/-- C9: `add_training_path` appends the given path and confirms exactly when
it is a non-empty string not already present; for a missing, empty or
duplicate path it returns the error payload and leaves the pattern list
unchanged. -/
theorem add_training_path_spec (paths : List String) (p : String) :
    add_training_path paths none = (paths, .error "Invalid or duplicate path") ∧
    (p ≠ "" ∧ p ∉ paths →
      add_training_path paths (some p) =
        (paths ++ [p], .message ("Added path: " ++ p))) ∧
    (p = "" ∨ p ∈ paths →
      add_training_path paths (some p) = (paths, .error "Invalid or duplicate path")) := by
  have hred : add_training_path paths (some p) =
      if p ≠ "" ∧ p ∉ paths then
        (paths ++ [p], .message ("Added path: " ++ p))
      else (paths, .error "Invalid or duplicate path") := rfl
  refine ⟨rfl, ?_, ?_⟩
  · intro h
    rw [hred, if_pos h]
  · intro h
    rw [hred, if_neg (by tauto)]

/-- Witness for `add_training_path_spec`: a duplicate is rejected without
changing the list, a fresh path is appended. -/
theorem add_training_path_spec_witness :
    add_training_path ["./runs"] (some "./runs")
        = (["./runs"], .error "Invalid or duplicate path") ∧
    add_training_path ["./runs"] (some "/data")
        = (["./runs", "/data"], .message "Added path: /data") :=
  ⟨(add_training_path_spec ["./runs"] "./runs").2.2 (Or.inr (by decide)),
   (add_training_path_spec ["./runs"] "/data").2.1 (by decide)⟩

/-- C10: the extension filter of the asset listings compares the suffix
against the exact lowercase strings, so a sample file is listed exactly when
its suffix is one of `.png`/`.jpg`/`.jpeg`, and `photo.PNG` (suffix `.PNG`)
is omitted from both the sample and the plot listing. -/
theorem extension_filter_case_sensitive (names : List String) (f : String) :
    (f ∈ listSamples (some names) ↔
      f ∈ names ∧ suffix f ∈ [".png", ".jpg", ".jpeg"]) ∧
    suffix "photo.PNG" = ".PNG" ∧
    listSamples (some ["photo.PNG", "a.png"]) = ["a.png"] ∧
    listPlots (some ["photo.PNG", "a.png"]) = ["a.png"] := by
  refine ⟨?_, by decide, by decide, by decide⟩
  unfold listSamples
  rw [mem_sortWith]
  simp [List.mem_filter]

end Dashboard
